import Mathlib

/-!
Verification development for the `timerefresh-plugin` repository
(an OpenCode plugin that injects a formatted timestamp into outgoing
chat messages).

The TypeScript sources are shallowly embedded below:

* `src/formatter.ts` — `isValidTimezone`, `getSystemTimezone`,
  `formatCustom`, `getDateParts`, `padZero`, `createTimeContext`,
  `formatTime`;
* `src/config.ts` — `DEFAULT_CONFIG`, `validateConfig`, `loadConfig`;
* `src/plugin.ts` — the `chat.message` hook with its idempotency guard.

Host-environment facilities (the `Intl` API, the system clock and
timezone database, locale rendering) are modelled by an explicit
environment record `JSEnv`; JavaScript exceptions are modelled with
`Except`.  Machine dates are modelled as milliseconds since the Unix
epoch (a `Nat`), and the UTC calendar arithmetic that `Date.toISOString`
and `Intl` perform in the UTC timezone is embedded as executable
Gregorian-calendar functions.
-/

namespace TimeRefresh

/-! ## Decimal rendering of numbers (JS `Number.prototype.toString`)

JavaScript renders the non-negative integer date components in decimal.
`natDigits` produces exactly those decimal digit characters. -/

def digitChar (d : Nat) : Char := Char.ofNat (48 + d)

def natDigitsF : Nat → Nat → List Char
  | 0, n => [digitChar n]
  | fuel + 1, n =>
    if n < 10 then [digitChar n]
    else natDigitsF fuel (n / 10) ++ [digitChar (n % 10)]

def natDigits (n : Nat) : List Char := natDigitsF n n

def natToString (n : Nat) : String := ⟨natDigits n⟩

/-- JS `String.prototype.padStart(len, '0')`. -/
def padStartZero (s : List Char) (len : Nat) : List Char :=
  List.replicate (len - s.length) '0' ++ s

/-- `padZero` from `src/formatter.ts`: `num.toString().padStart(length, '0')`. -/
def padZero (n : Nat) (len : Nat) : List Char :=
  padStartZero (natDigits n) len

/-! ## Gregorian calendar arithmetic (UTC)

Embedding of the civil-calendar computation that `Date.toISOString` and
`Intl.DateTimeFormat` (with `timeZone: 'UTC'`) perform for instants at
or after the Unix epoch. -/

structure DateParts where
  year : Nat
  month : Nat
  day : Nat
  hour : Nat
  minute : Nat
  second : Nat
deriving DecidableEq, Repr, Inhabited

/-- Convert a count of days since 1970-01-01 to a civil `(year, month, day)`
triple in the proleptic Gregorian calendar. -/
def civilFromDays (days : Nat) : Nat × Nat × Nat :=
  let z := days + 719468
  let era := z / 146097
  let doe := z % 146097
  let yoe := (doe - doe / 1460 + doe / 36524 - doe / 146096) / 365
  let y := yoe + era * 400
  let doy := doe - (365 * yoe + yoe / 4 - yoe / 100)
  let mp := (5 * doy + 2) / 153
  let d := doy - (153 * mp + 2) / 5 + 1
  let m := if mp < 10 then mp + 3 else mp - 9
  (if m ≤ 2 then y + 1 else y, m, d)

/-- The UTC calendar/time components of an instant given as milliseconds
since the Unix epoch.  This embeds what `getDateParts(date, 'UTC')`
extracts via `Intl.DateTimeFormat.formatToParts`. -/
def utcDateParts (ms : Nat) : DateParts :=
  let s := ms / 1000
  let days := s / 86400
  let sod := s % 86400
  let ymd := civilFromDays days
  { year := ymd.1
    month := ymd.2.1
    day := ymd.2.2
    hour := sod / 3600
    minute := sod % 3600 / 60
    second := sod % 60 }

/-- Embedding of `Date.prototype.toISOString` for instants at or after the
epoch: `YYYY-MM-DDTHH:mm:ss.sssZ`, always UTC, millisecond precision. -/
def toISOString (ms : Nat) : String :=
  let p := utcDateParts ms
  ⟨padZero p.year 4 ++ '-' :: padZero p.month 2 ++ '-' :: padZero p.day 2 ++
    'T' :: padZero p.hour 2 ++ ':' :: padZero p.minute 2 ++ ':' :: padZero p.second 2 ++
    '.' :: padZero (ms % 1000) 3 ++ ['Z']⟩

/-! ## `formatCustom` (src/formatter.ts)

`formatCustom` performs, for each of the twelve tokens in order,
`result = result.split(token).join(value)`.  For a non-empty separator,
JavaScript `split`/`join` replaces the leftmost non-overlapping
occurrences of the separator; `replaceAll` below is that operation with
the (always non-empty) pattern supplied as head `c` and tail `cs`. -/

def replaceAllF (c : Char) (cs v : List Char) : Nat → List Char → List Char
  | _, [] => []
  | 0, s => s
  | fuel + 1, x :: xs =>
    if (c :: cs).isPrefixOf (x :: xs) then
      v ++ replaceAllF c cs v fuel (xs.drop cs.length)
    else x :: replaceAllF c cs v fuel xs

def replaceAll (c : Char) (cs v : List Char) (s : List Char) : List Char :=
  replaceAllF c cs v s.length s

/-- The twelve custom-format tokens (`FORMAT_TOKENS` in src/formatter.ts):
`YYYY`, `YY`, `MM`, `M`, `DD`, `D`, `HH`, `H`, `mm`, `m`, `ss`, `s`. -/
inductive Tok where
  | Y4 | Y2 | M2 | M1 | D2 | D1 | H2 | H1 | Mi2 | Mi1 | S2 | S1
deriving DecidableEq, Repr, Fintype

def Tok.letter : Tok → Char
  | .Y4 => 'Y' | .Y2 => 'Y'
  | .M2 => 'M' | .M1 => 'M'
  | .D2 => 'D' | .D1 => 'D'
  | .H2 => 'H' | .H1 => 'H'
  | .Mi2 => 'm' | .Mi1 => 'm'
  | .S2 => 's' | .S1 => 's'

def Tok.len : Tok → Nat
  | .Y4 => 4
  | .Y2 | .M2 | .D2 | .H2 | .Mi2 | .S2 => 2
  | .M1 | .D1 | .H1 | .Mi1 | .S1 => 1

/-- The literal character string of a token.  Every token is a repetition
of a single letter. -/
def Tok.chars (t : Tok) : List Char := List.replicate t.len t.letter

/-- The replacement value of each token (the `replacements` record in
`formatCustom`). -/
def Tok.val (p : DateParts) : Tok → List Char
  | .Y4 => padZero p.year 4
  | .Y2 => padZero (p.year % 100) 2
  | .M2 => padZero p.month 2
  | .M1 => natDigits p.month
  | .D2 => padZero p.day 2
  | .D1 => natDigits p.day
  | .H2 => padZero p.hour 2
  | .H1 => natDigits p.hour
  | .Mi2 => padZero p.minute 2
  | .Mi1 => natDigits p.minute
  | .S2 => padZero p.second 2
  | .S1 => natDigits p.second

/-- `FORMAT_TOKENS`: replacement order, longest tokens first within each
letter family. -/
def FORMAT_TOKENS : List Tok :=
  [.Y4, .Y2, .M2, .M1, .D2, .D1, .H2, .H1, .Mi2, .Mi1, .S2, .S1]

/-- One `result.split(token).join(value)` pass of `formatCustom`. -/
def applyTok (p : DateParts) (acc : List Char) (t : Tok) : List Char :=
  replaceAll t.letter (List.replicate (t.len - 1) t.letter) (t.val p) acc

/-- `formatCustom` on the character-list level: the twelve sequential
`split`/`join` passes over the template. -/
def formatCustomL (p : DateParts) (tpl : List Char) : List Char :=
  FORMAT_TOKENS.foldl (applyTok p) tpl

/-- `formatCustom(date, format, timezone)` from src/formatter.ts, with the
timezone-dependent `getDateParts` result supplied as `p`. -/
def formatCustom (p : DateParts) (format : String) : String :=
  ⟨formatCustomL p format.toList⟩

/-! ## Host environment and JavaScript exceptions

`Intl` and the locale/timezone database are host facilities; they are
modelled as an explicit environment record.  A JavaScript exception is
either a `RangeError` (thrown by `Intl.DateTimeFormat` for an invalid
timezone identifier) or some other error. -/

inductive JsError where
  | rangeError
  | otherError
deriving DecidableEq, Repr

structure JSEnv where
  /-- `Intl.DateTimeFormat(undefined, { timeZone: tz })`: succeeds or throws. -/
  tzProbe : String → Except JsError Unit
  /-- `Intl.DateTimeFormat().resolvedOptions().timeZone`. -/
  systemTz : String
  /-- `date.toLocaleString(undefined, { timeZone })`. -/
  localeString : Nat → String → String
  /-- `date.toLocaleDateString(undefined, { timeZone })`. -/
  localeDate : Nat → String → String
  /-- `date.toLocaleTimeString(undefined, { timeZone })`. -/
  localeTime : Nat → String → String
  /-- `date.toLocaleDateString(undefined, { weekday: 'long', timeZone })`. -/
  localeWeekday : Nat → String → String
  /-- `getDateParts(date, timezone)` (`none` = `timeZone: undefined`). -/
  dateParts : Nat → Option String → DateParts

/-- A host whose `Intl.DateTimeFormat` constructor fails only with
`RangeError` (the behaviour the ECMA-402 specification prescribes for
string `timeZone` values). -/
def WellBehaved (env : JSEnv) : Prop :=
  ∀ s e, env.tzProbe s = .error e → e = JsError.rangeError

/-- `isValidTimezone` from src/formatter.ts: empty string is valid; other
strings are probed, `RangeError` means invalid, any other exception is
re-thrown. -/
def isValidTimezone (env : JSEnv) (timezone : String) : Except JsError Bool :=
  if timezone = "" then .ok true
  else
    match env.tzProbe timezone with
    | .ok _ => .ok true
    | .error .rangeError => .ok false
    | .error e => .error e

/-- `getSystemTimezone` from src/formatter.ts. -/
def getSystemTimezone (env : JSEnv) : String := env.systemTz

/-- The timezone resolution inlined in `formatTime` and
`createTimeContext`:
`timezone && isValidTimezone(timezone) ? timezone : getSystemTimezone()`.
The empty string is falsy, so it short-circuits to the system timezone
without probing. -/
def resolveTimezoneE (env : JSEnv) (timezone : String) : Except JsError String :=
  if timezone = "" then .ok (getSystemTimezone env)
  else (isValidTimezone env timezone).map fun ok =>
    if ok then timezone else getSystemTimezone env

/-- Same resolution for the optional `timezone?: string` parameter of
`createTimeContext` (`undefined` is falsy). -/
def resolveTimezoneOptE (env : JSEnv) : Option String → Except JsError String
  | none => .ok (getSystemTimezone env)
  | some tz => resolveTimezoneE env tz

/-! ## Configuration value and `formatTime` -/

/-- `TimeRefreshConfig` as it exists at runtime.  `format` is a string:
the TypeScript annotation restricts it to `'iso' | 'locale' | 'custom'`,
but values loaded from JSON configuration files can carry any string, and
`formatTime` handles that with a `default` switch case. -/
structure TimeRefreshConfig where
  enabled : Bool
  format : String
  customFormat : String
  timezone : String
  includeInEveryMessage : Bool
  prefixStr : String
  suffix : String
deriving DecidableEq, Repr

/-- `DEFAULT_CONFIG` from src/config.ts. -/
def DEFAULT_CONFIG : TimeRefreshConfig :=
  { enabled := true
    format := "iso"
    customFormat := "YYYY-MM-DD HH:mm:ss"
    timezone := ""
    includeInEveryMessage := true
    prefixStr := "[Current time: "
    suffix := "]" }

/-- The `switch (config.format)` body of `formatTime`, evaluated with the
already-resolved timezone. -/
def formatBody (env : JSEnv) (config : TimeRefreshConfig) (ms : Nat)
    (timezone : String) : String :=
  if config.format = "iso" then toISOString ms
  else if config.format = "locale" then env.localeString ms timezone
  else if config.format = "custom" then
    formatCustom (env.dateParts ms (if timezone = "" then none else some timezone))
      config.customFormat
  else toISOString ms

/-- `formatTime` from src/formatter.ts: resolve the timezone, render per
`config.format`, then apply prefix and suffix. -/
def formatTime (env : JSEnv) (config : TimeRefreshConfig) (ms : Nat) :
    Except JsError String :=
  (resolveTimezoneE env config.timezone).map fun timezone =>
    config.prefixStr ++ formatBody env config ms timezone ++ config.suffix

/-! ## `createTimeContext` (src/formatter.ts) -/

structure TimeContext where
  iso : String
  local_ : String
  date : String
  time : String
  timezone : String
  dayOfWeek : String
  timestamp : Nat
deriving DecidableEq, Repr

/-- `createTimeContext(date, timezone?)`. -/
def createTimeContext (env : JSEnv) (ms : Nat) (timezone : Option String) :
    Except JsError TimeContext :=
  (resolveTimezoneOptE env timezone).map fun resolvedTimezone =>
    { iso := toISOString ms
      local_ := env.localeString ms resolvedTimezone
      date := env.localeDate ms resolvedTimezone
      time := env.localeTime ms resolvedTimezone
      timezone := resolvedTimezone
      dayOfWeek := env.localeWeekday ms resolvedTimezone
      timestamp := ms }

/-! ## `validateConfig` (src/config.ts)

`validateConfig` performs JavaScript run-time `typeof` checks, so its
input is modelled with a dynamic value type covering the JSON value
shapes a loaded configuration can actually carry. -/

inductive JSVal where
  | vBool (b : Bool)
  | vStr (s : String)
  | vNum (n : Int)
  | vNull
  | vUndef
  | vObj
deriving DecidableEq, Repr

def JSVal.isBoolean : JSVal → Bool
  | .vBool _ => true
  | _ => false

def JSVal.isString : JSVal → Bool
  | .vStr _ => true
  | _ => false

/-- A run-time configuration object as `validateConfig` receives it. -/
structure RawConfig where
  enabled : JSVal
  format : JSVal
  customFormat : JSVal
  timezone : JSVal
  includeInEveryMessage : JSVal
  prefixStr : JSVal
  suffix : JSVal
deriving DecidableEq, Repr

structure ValidationError where
  field : String
  message : String
  value : JSVal
deriving DecidableEq, Repr

structure ValidationResult where
  valid : Bool
  errors : List ValidationError
deriving DecidableEq, Repr

/-- `VALID_FORMATS.includes(config.format)`: strict-equality membership in
`['iso', 'locale', 'custom']`. -/
def formatIsValid (v : JSVal) : Bool :=
  v == .vStr "iso" || v == .vStr "locale" || v == .vStr "custom"

/-- `customFormat.trim() === ''` for a string value (ASCII whitespace
model of the JS `trim` character class). -/
def jsTrimEmpty (s : String) : Bool :=
  s.toList.all fun c =>
    c == ' ' || c == '\t' || c == '\n' || c == '\x0d' || c == '\x0b' || c == '\x0c'

/-- `isValidTimezone` as seen by `validateConfig`, for a host whose
timezone-identifier acceptance is the pure predicate `tzdb` (the
non-throwing restriction of `isValidTimezone` above). -/
def isValidTimezoneP (tzdb : String → Bool) (tz : String) : Bool :=
  tz == "" || tzdb tz

/-- The `enabled` type check of `validateConfig`. -/
def enabledErrors (v : JSVal) : List ValidationError :=
  if v.isBoolean then []
  else [ValidationError.mk "enabled" "enabled must be a boolean" v]

/-- The `format` enum-membership check of `validateConfig`. -/
def formatErrors (v : JSVal) : List ValidationError :=
  if formatIsValid v then []
  else [ValidationError.mk "format"
    "format must be one of: \x27iso\x27, \x27locale\x27, \x27custom\x27" v]

/-- The conditional `customFormat` check of `validateConfig`
(`typeof !== 'string' || trim() === ''`, only when `format === 'custom'`). -/
def customFormatErrors (format customFormat : JSVal) : List ValidationError :=
  if format == .vStr "custom" then
    match customFormat with
    | .vStr s =>
      if jsTrimEmpty s then
        [ValidationError.mk "customFormat"
          "customFormat must be a non-empty string when format is \x27custom\x27"
          (.vStr s)]
      else []
    | v =>
      [ValidationError.mk "customFormat"
        "customFormat must be a non-empty string when format is \x27custom\x27" v]
  else []

/-- The `timezone` type and validity checks of `validateConfig`. -/
def timezoneErrors (tzdb : String → Bool) : JSVal → List ValidationError
  | .vStr s =>
    if s ≠ "" && !isValidTimezoneP tzdb s then
      [ValidationError.mk "timezone"
        ("timezone \x27" ++ s ++ "\x27 is not a valid IANA timezone identifier")
        (.vStr s)]
    else []
  | v => [ValidationError.mk "timezone" "timezone must be a string" v]

/-- The `includeInEveryMessage` type check of `validateConfig`. -/
def includeErrors (v : JSVal) : List ValidationError :=
  if v.isBoolean then []
  else [ValidationError.mk "includeInEveryMessage"
    "includeInEveryMessage must be a boolean" v]

/-- The `prefix` type check of `validateConfig`. -/
def prefixErrors (v : JSVal) : List ValidationError :=
  if v.isString then []
  else [ValidationError.mk "prefix" "prefix must be a string" v]

/-- The `suffix` type check of `validateConfig`. -/
def suffixErrors (v : JSVal) : List ValidationError :=
  if v.isString then []
  else [ValidationError.mk "suffix" "suffix must be a string" v]

/-- `validateConfig` from src/config.ts: one independent check per field,
every failure pushed onto `errors` in field-declaration order, and
`valid: errors.length === 0`. -/
def validateConfig (tzdb : String → Bool) (config : RawConfig) : ValidationResult :=
  let errors :=
    enabledErrors config.enabled ++ formatErrors config.format ++
    customFormatErrors config.format config.customFormat ++
    timezoneErrors tzdb config.timezone ++
    includeErrors config.includeInEveryMessage ++
    prefixErrors config.prefixStr ++ suffixErrors config.suffix
  { valid := errors.length == 0, errors := errors }

/-! ## `loadConfig` (src/config.ts) -/

/-- `Partial<TimeRefreshConfig>`: each field present or absent. -/
structure PartialConfig where
  enabled : Option Bool := none
  format : Option String := none
  customFormat : Option String := none
  timezone : Option String := none
  includeInEveryMessage : Option Bool := none
  prefixStr : Option String := none
  suffix : Option String := none
deriving DecidableEq, Repr

/-- The object-spread merge `{ ...base, ...p }`: every field present in
`p` overrides the corresponding field of `base`. -/
def mergeConfig (base : TimeRefreshConfig) (p : PartialConfig) : TimeRefreshConfig :=
  { enabled := p.enabled.getD base.enabled
    format := p.format.getD base.format
    customFormat := p.customFormat.getD base.customFormat
    timezone := p.timezone.getD base.timezone
    includeInEveryMessage := p.includeInEveryMessage.getD base.includeInEveryMessage
    prefixStr := p.prefixStr.getD base.prefixStr
    suffix := p.suffix.getD base.suffix }

/-- `loadConfig(userConfig?)` at the value level.  `none` covers both
`null` and `undefined` (the `userConfig == null` test). -/
def loadConfig (userConfig : Option PartialConfig) : TimeRefreshConfig :=
  match userConfig with
  | none => DEFAULT_CONFIG
  | some p => mergeConfig DEFAULT_CONFIG p

/-- Object store for the aliasing behaviour of `loadConfig`: JavaScript
objects live on a heap and `{ ...DEFAULT_CONFIG, ... }` allocates a fresh
object.  Addresses are list indices; address `0` holds the module-level
`DEFAULT_CONFIG` object. -/
structure ConfigStore where
  objs : List TimeRefreshConfig
deriving DecidableEq, Repr

/-- `loadConfig` against the store: reads the default object, allocates a
fresh object holding the (merged) copy, and returns its address. -/
def loadConfigS (s : ConfigStore) (userConfig : Option PartialConfig) :
    ConfigStore × Nat :=
  let d := s.objs.getD 0 DEFAULT_CONFIG
  let v := match userConfig with
    | none => d
    | some p => mergeConfig d p
  (⟨s.objs ++ [v]⟩, s.objs.length)

/-- A caller mutating the object at address `a` (field writes modelled as
replacing the stored value). -/
def writeObj (s : ConfigStore) (a : Nat) (v : TimeRefreshConfig) : ConfigStore :=
  ⟨s.objs.set a v⟩

/-! ## The `chat.message` hook (src/plugin.ts) -/

structure HookInput where
  messageID : String
  sessionID : String
deriving DecidableEq, Repr

/-- A message part: either a text part or some other part kind. -/
inductive MsgPart where
  | text (id sessionID messageID txt : String)
  | other (tag : String)
deriving DecidableEq, Repr

def MsgPart.isText : MsgPart → Bool
  | .text _ _ _ _ => true
  | .other _ => false

def MsgPart.txt? : MsgPart → Option String
  | .text _ _ _ t => some t
  | .other _ => none

/-- `_input.messageID || _input.sessionID`: the empty string is falsy. -/
def messageKey (input : HookInput) : String :=
  if input.messageID = "" then input.sessionID else input.messageID

/-- `firstTextPart.text = timeString + '\n\n' + firstTextPart.text`:
in-place mutation of the first text part of the list. -/
def prependFirstText (timeString : String) : List MsgPart → List MsgPart
  | [] => []
  | .text i s m t :: rest => .text i s m (timeString ++ "\n\n" ++ t) :: rest
  | p :: rest => p :: prependFirstText timeString rest

/-- The `'chat.message'` hook from src/plugin.ts.  State is the
`processedMessages` set (membership-faithful list) plus the mutable
`output.parts`; `nowMs` is the value of both `new Date()` and
`Date.now()` during the invocation. -/
def chatMessageHook (env : JSEnv) (config : TimeRefreshConfig) (nowMs : Nat)
    (input : HookInput) (processed : List String) (parts : List MsgPart) :
    Except JsError (List String × List MsgPart) :=
  if config.includeInEveryMessage = false then .ok (processed, parts)
  else
    let key := messageKey input
    if key ∈ processed then .ok (processed, parts)
    else
      (formatTime env config nowMs).map fun timeString =>
        (key :: processed,
          if parts.any MsgPart.isText then prependFirstText timeString parts
          else
            MsgPart.text ("time-" ++ natToString nowMs) input.sessionID
              input.messageID timeString :: parts)

/-! ## Specification of token templates

A template "composed solely of the twelve defined tokens and arbitrary
non-token separator characters" is a sequence of items, each either a
token or a separator character that is not one of the token letters
`Y M D H m s`.  Because tokens are matched longest-first, a segmentation
is meaningful only when it coincides with the longest-first reading of
the rendered string: a token that could be extended by the same-letter
token that follows it (e.g. `M` directly followed by `M`, which
longest-first matching reads as the single token `MM`) is excluded by
the `Chain'` condition of `WFTemplate`. -/

def isTokenLetter (c : Char) : Bool :=
  c == 'Y' || c == 'M' || c == 'D' || c == 'H' || c == 'm' || c == 's'

inductive TItem where
  | tok (t : Tok)
  | sep (c : Char)
deriving DecidableEq, Repr

def TItem.chars : TItem → List Char
  | .tok t => t.chars
  | .sep c => [c]

/-- The value of a template item after substitution: a token becomes its
replacement component, a separator character is unchanged. -/
def TItem.subst (p : DateParts) : TItem → List Char
  | .tok t => t.val p
  | .sep c => [c]

/-- The template string spelled by a list of items. -/
def renderT (items : List TItem) : List Char :=
  (items.map TItem.chars).flatten

/-- The specified substitution result: every token occurrence replaced by
its component, every separator character left unchanged. -/
def substT (p : DateParts) (items : List TItem) : List Char :=
  (items.map (TItem.subst p)).flatten

/-- A token that a longer same-letter token extends (`YY`, `M`, `D`, `H`,
`m`, `s`): longest-first matching could consume it together with a
same-letter successor. -/
def Tok.extendable : Tok → Bool
  | .Y2 | .M1 | .D1 | .H1 | .Mi1 | .S1 => true
  | _ => false

def itemSepOk : TItem → Prop
  | .sep c => isTokenLetter c = false
  | .tok _ => True

/-- Adjacent tokens of the same letter family would be re-read by
longest-first matching when the first is extendable. -/
def itemAdj : TItem → TItem → Prop
  | .tok a, .tok b => a.extendable = true → b.letter ≠ a.letter
  | _, _ => True

/-- Well-formed template: separators are non-token characters, and the
segmentation agrees with longest-first token matching. -/
def WFTemplate (items : List TItem) : Prop :=
  (∀ it ∈ items, itemSepOk it) ∧ List.Chain' itemAdj items

instance : DecidablePred itemSepOk := fun it =>
  match it with
  | .sep c => inferInstanceAs (Decidable (isTokenLetter c = false))
  | .tok _ => inferInstanceAs (Decidable True)

instance : ∀ a b, Decidable (itemAdj a b) := fun a b =>
  match a, b with
  | .tok x, .tok y =>
    inferInstanceAs (Decidable (x.extendable = true → y.letter ≠ x.letter))
  | .tok _, .sep _ => inferInstanceAs (Decidable True)
  | .sep _, .tok _ => inferInstanceAs (Decidable True)
  | .sep _, .sep _ => inferInstanceAs (Decidable True)

instance decChainItemAdj : ∀ (a : TItem) (l : List TItem),
    Decidable (List.Chain itemAdj a l)
  | _, [] => isTrue List.Chain.nil
  | a, b :: rest =>
    haveI := decChainItemAdj b rest
    decidable_of_iff (itemAdj a b ∧ List.Chain itemAdj b rest) List.chain_cons.symm

instance decChainAdj : ∀ l : List TItem, Decidable (List.Chain' itemAdj l)
  | [] => isTrue trivial
  | a :: rest => inferInstanceAs (Decidable (List.Chain itemAdj a rest))

instance (items : List TItem) : Decidable (WFTemplate items) :=
  inferInstanceAs (Decidable ((∀ it ∈ items, itemSepOk it) ∧ List.Chain' itemAdj items))

/-! ## Intermediate segments for the pass-by-pass argument

While the twelve `split`/`join` passes run, the string is a concatenation
of inert literal pieces (original separators and already-substituted
digit values, none of which contain token letters) and still-pending
token occurrences. -/

inductive Seg where
  | lit (l : List Char)
  | tk (t : Tok)
deriving DecidableEq, Repr

def Seg.chars : Seg → List Char
  | .lit l => l
  | .tk t => t.chars

def renderS (segs : List Seg) : List Char :=
  (segs.map Seg.chars).flatten

def segLitOk : Seg → Prop
  | .lit l => l ≠ [] ∧ ∀ c ∈ l, isTokenLetter c = false
  | .tk _ => True

def segAdj : Seg → Seg → Prop
  | .tk a, .tk b => a.extendable = true → b.letter ≠ a.letter
  | _, _ => True

/-- Effect of the pass for token `t` on one segment. -/
def segStep (p : DateParts) (t : Tok) : Seg → Seg
  | .tk u => if u = t then .lit (u.val p) else .tk u
  | .lit l => .lit l

/-- Effect of the pass for token `t` on the segment list. -/
def passSeg (p : DateParts) (t : Tok) (segs : List Seg) : List Seg :=
  segs.map (segStep p t)

def initSeg : TItem → Seg
  | .tok t => .tk t
  | .sep c => .lit [c]

/-! ## Hook behaviour -/

/-- A demonstration host environment used for concrete evaluations: every
timezone probe succeeds, the system timezone is UTC, and date parts are
UTC parts. -/
def demoEnv : JSEnv :=
  { tzProbe := fun _ => .ok ()
    systemTz := "UTC"
    localeString := fun _ _ => "6/15/2024, 2:30:45 PM"
    localeDate := fun _ _ => "6/15/2024"
    localeTime := fun _ _ => "2:30:45 PM"
    localeWeekday := fun _ _ => "Saturday"
    dateParts := fun ms _ => utcDateParts ms }

/-! ## Theorems -/

theorem natDigitsF_congr : ∀ (f1 n f2 : Nat), n ≤ f1 → n ≤ f2 →
    natDigitsF f1 n = natDigitsF f2 n := by
  intro f1
  induction f1 with
  | zero =>
    intro n f2 h1 _
    obtain rfl : n = 0 := by omega
    cases f2 <;> rfl
  | succ f1 ih =>
    intro n f2 h1 h2
    by_cases hn : n < 10
    · cases f2 with
      | zero =>
        obtain rfl : n = 0 := by omega
        simp [natDigitsF]
      | succ f2 => simp [natDigitsF, hn]
    · obtain ⟨f2', rfl⟩ : ∃ f2', f2 = f2' + 1 := ⟨f2 - 1, by omega⟩
      show (if n < 10 then [digitChar n]
          else natDigitsF f1 (n / 10) ++ [digitChar (n % 10)]) =
        (if n < 10 then [digitChar n]
          else natDigitsF f2' (n / 10) ++ [digitChar (n % 10)])
      rw [if_neg hn, if_neg hn,
        ih (n / 10) f2' (by omega) (by omega)]

/-- The recurrence of `natDigits`: one decimal digit per division step. -/
theorem natDigits_unfold (n : Nat) :
    natDigits n = if n < 10 then [digitChar n]
      else natDigits (n / 10) ++ [digitChar (n % 10)] := by
  by_cases hn : n < 10
  · rw [if_pos hn]
    cases n with
    | zero => rfl
    | succ m =>
      show natDigitsF (m + 1) (m + 1) = _
      simp [natDigitsF, hn]
  · rw [if_neg hn]
    obtain ⟨m, rfl⟩ : ∃ m, n = m + 1 := ⟨n - 1, by omega⟩
    show (if m + 1 < 10 then [digitChar (m + 1)]
        else natDigitsF m ((m + 1) / 10) ++ [digitChar ((m + 1) % 10)]) = _
    rw [if_neg hn, natDigitsF_congr m ((m + 1) / 10) ((m + 1) / 10) (by omega) le_rfl]
    rfl

theorem natDigits_ne_nil (n : Nat) : natDigits n ≠ [] := by
  rw [natDigits_unfold]
  split
  · simp
  · simp

theorem mem_natDigits (n : Nat) (c : Char) (hc : c ∈ natDigits n) :
    ∃ d, d < 10 ∧ c = digitChar d := by
  induction n using Nat.strong_induction_on with
  | _ n ih =>
    rw [natDigits_unfold] at hc
    split at hc
    · exact ⟨n, by omega, by simpa using hc⟩
    · rcases List.mem_append.1 hc with h | h
      · exact ih (n / 10) (Nat.div_lt_self (by omega) (by omega)) h
      · exact ⟨n % 10, Nat.mod_lt _ (by omega), by simpa using h⟩

theorem renderS_nil : renderS [] = [] := rfl

theorem renderS_cons (s : Seg) (rest : List Seg) :
    renderS (s :: rest) = s.chars ++ renderS rest := by
  simp [renderS]

/-! ## Unfolding and skipping lemmas for `replaceAll` -/

theorem replaceAllF_nil (c : Char) (cs v : List Char) (fuel : Nat) :
    replaceAllF c cs v fuel [] = [] := by
  cases fuel <;> rfl

theorem replaceAllF_congr (c : Char) (cs v : List Char) :
    ∀ (f1 : Nat) (s : List Char) (f2 : Nat), s.length ≤ f1 → s.length ≤ f2 →
      replaceAllF c cs v f1 s = replaceAllF c cs v f2 s := by
  intro f1
  induction f1 with
  | zero =>
    intro s f2 h1 _
    obtain rfl : s = [] := List.length_eq_zero.1 (by omega)
    rw [replaceAllF_nil, replaceAllF_nil]
  | succ f1 ih =>
    intro s f2 h1 h2
    cases s with
    | nil => rw [replaceAllF_nil, replaceAllF_nil]
    | cons x xs =>
      obtain ⟨f2', rfl⟩ : ∃ f2', f2 = f2' + 1 :=
        ⟨f2 - 1, by simp at h2; omega⟩
      show (if (c :: cs).isPrefixOf (x :: xs) then
          v ++ replaceAllF c cs v f1 (xs.drop cs.length)
        else x :: replaceAllF c cs v f1 xs) =
        (if (c :: cs).isPrefixOf (x :: xs) then
          v ++ replaceAllF c cs v f2' (xs.drop cs.length)
        else x :: replaceAllF c cs v f2' xs)
      simp only [List.length_cons] at h1 h2
      split
      · rw [ih (xs.drop cs.length) f2' (by simp; omega) (by simp; omega)]
      · rw [ih xs f2' (by omega) (by omega)]

theorem replaceAll_nil (c : Char) (cs v : List Char) : replaceAll c cs v [] = [] := rfl

theorem replaceAll_cons (c : Char) (cs v : List Char) (x : Char) (xs : List Char) :
    replaceAll c cs v (x :: xs) =
      if (c :: cs).isPrefixOf (x :: xs) then v ++ replaceAll c cs v (xs.drop cs.length)
      else x :: replaceAll c cs v xs := by
  show (if (c :: cs).isPrefixOf (x :: xs) then
      v ++ replaceAllF c cs v xs.length (xs.drop cs.length)
    else x :: replaceAllF c cs v xs.length xs) = _
  unfold replaceAll
  split
  · rw [replaceAllF_congr c cs v xs.length (xs.drop cs.length) (xs.drop cs.length).length
      (by simp) (by simp)]
  · rfl

/-- `replaceAll` passes unchanged over a block containing no occurrence of
the pattern's first character. -/
theorem replaceAll_skip (c : Char) (cs v : List Char) (l s : List Char)
    (hl : ∀ x ∈ l, x ≠ c) :
    replaceAll c cs v (l ++ s) = l ++ replaceAll c cs v s := by
  induction l with
  | nil => simp
  | cons x l ih =>
    have hx : (c == x) = false :=
      beq_eq_false_iff_ne.2 (Ne.symm (hl x (List.mem_cons_self x l)))
    rw [List.cons_append, replaceAll_cons, List.isPrefixOf_cons₂, hx]
    simp only [Bool.false_and, Bool.false_eq_true, if_false]
    rw [ih fun y hy => hl y (List.mem_cons_of_mem _ hy)]
    simp

/-- A replicate pattern longer than the leading same-character run is not
a prefix when the run is followed by a different character (or nothing). -/
theorem isPrefixOf_replicate_append (a : Char) (j k : Nat) (s : List Char)
    (hs : ∀ c, s.head? = some c → c ≠ a) :
    ∀ _ : j < k, (List.replicate k a).isPrefixOf (List.replicate j a ++ s) = false := by
  induction j generalizing k with
  | zero =>
    intro hjk
    obtain ⟨k', rfl⟩ : ∃ k', k = k' + 1 := ⟨k - 1, by omega⟩
    cases s with
    | nil => simp
    | cons x s' =>
      have hx : (a == x) = false := beq_eq_false_iff_ne.2 (Ne.symm (hs x rfl))
      simp [List.replicate_succ, List.isPrefixOf_cons₂, hx]
  | succ j ih =>
    intro hjk
    obtain ⟨k', rfl⟩ : ∃ k', k = k' + 1 := ⟨k - 1, by omega⟩
    simp only [List.replicate_succ, List.cons_append, List.isPrefixOf_cons₂,
      BEq.refl, Bool.true_and]
    exact ih k' (by omega)

/-- `replaceAll` with pattern `a^k` passes unchanged over a run `a^j` with
`j < k` whose continuation does not start with `a`. -/
theorem replaceAll_run (a : Char) (k : Nat) (v : List Char) (s : List Char)
    (hs : ∀ c, s.head? = some c → c ≠ a) :
    ∀ j, j < k →
      replaceAll a (List.replicate (k - 1) a) v (List.replicate j a ++ s) =
        List.replicate j a ++ replaceAll a (List.replicate (k - 1) a) v s := by
  intro j
  induction j with
  | zero => intro _; simp
  | succ j ih =>
    intro hjk
    rw [List.replicate_succ, List.cons_append, replaceAll_cons]
    have hpat : a :: List.replicate (k - 1) a = List.replicate k a := by
      rw [← List.replicate_succ]
      congr 1
      omega
    have hpre : (a :: List.replicate (k - 1) a).isPrefixOf
        (a :: (List.replicate j a ++ s)) = false := by
      have h2 : a :: (List.replicate j a ++ s) = List.replicate (j + 1) a ++ s := by
        rw [List.replicate_succ, List.cons_append]
      rw [hpat, h2]
      exact isPrefixOf_replicate_append a (j + 1) k s hs hjk
    rw [hpre]
    simp only [Bool.false_eq_true, if_false]
    rw [ih (by omega)]
    simp

/-- `replaceAll` consumes an exact occurrence of the pattern at the head. -/
theorem replaceAll_exact (c : Char) (cs v s : List Char) :
    replaceAll c cs v ((c :: cs) ++ s) = v ++ replaceAll c cs v s := by
  rw [List.cons_append, replaceAll_cons]
  have hpre : (c :: cs).isPrefixOf (c :: (cs ++ s)) = true := by
    rw [List.isPrefixOf_iff_prefix]
    exact ⟨s, by simp⟩
  rw [hpre]
  simp only [if_true]
  rw [List.drop_left]

/-! ## Facts about the token alphabet and replacement values -/

theorem tok_letter_isTokenLetter (t : Tok) : isTokenLetter t.letter = true := by
  cases t <;> rfl

theorem tok_len_pos (t : Tok) : 1 ≤ t.len := by
  cases t <;> simp [Tok.len]

theorem tok_eq_of_letter_len : ∀ u t : Tok, u.letter = t.letter → u.len = t.len → u = t := by
  decide

theorem tok_extendable_of_shorter : ∀ u t : Tok, u.letter = t.letter → u.len < t.len →
    u.extendable = true := by
  decide

theorem tok_mem_FORMAT_TOKENS : ∀ t : Tok, t ∈ FORMAT_TOKENS := by
  decide

theorem digit_not_tokenLetter (d : Nat) (hd : d < 10) :
    isTokenLetter (digitChar d) = false := by
  interval_cases d <;> rfl

theorem natDigits_not_tokenLetter (n : Nat) :
    ∀ c ∈ natDigits n, isTokenLetter c = false := fun c hc => by
  obtain ⟨d, hd, rfl⟩ := mem_natDigits n c hc
  exact digit_not_tokenLetter d hd

theorem padZero_not_tokenLetter (n len : Nat) :
    ∀ c ∈ padZero n len, isTokenLetter c = false := fun c hc => by
  rcases List.mem_append.1 hc with h | h
  · rw [List.eq_of_mem_replicate h]
    rfl
  · exact natDigits_not_tokenLetter n c h

theorem padZero_ne_nil (n len : Nat) : padZero n len ≠ [] := by
  intro h
  rcases List.append_eq_nil.1 h with ⟨-, h2⟩
  exact natDigits_ne_nil n h2

theorem tokVal_ne_nil (p : DateParts) (t : Tok) : t.val p ≠ [] := by
  cases t <;> first
    | exact padZero_ne_nil _ _
    | exact natDigits_ne_nil _

theorem tokVal_not_tokenLetter (p : DateParts) (t : Tok) :
    ∀ c ∈ t.val p, isTokenLetter c = false := by
  cases t <;> first
    | exact padZero_not_tokenLetter _ _
    | exact natDigits_not_tokenLetter _

/-! ## The pass-by-pass correctness argument -/

/-- The first character of the rendering of a segment list whose head is
neither a same-letter token nor a token-letter literal differs from the
given token letter. -/
theorem head_renderS_ne (u : Tok) (rest : List Seg)
    (hlits : ∀ s ∈ rest, segLitOk s)
    (hadj : ∀ b, rest.head? = some (Seg.tk b) → b.letter ≠ u.letter) :
    ∀ c, (renderS rest).head? = some c → c ≠ u.letter := by
  cases rest with
  | nil => intro c hc; simp [renderS] at hc
  | cons s rest' =>
    intro c hc
    rw [renderS_cons] at hc
    cases s with
    | lit l =>
      obtain ⟨hne, hl⟩ := hlits (Seg.lit l) (List.mem_cons_self _ _)
      cases l with
      | nil => exact absurd rfl hne
      | cons x l' =>
        simp only [Seg.chars, List.cons_append, List.head?_cons, Option.some.injEq] at hc
        subst hc
        intro h
        rw [h] at hl
        have := hl u.letter (List.mem_cons_self _ _)
        rw [tok_letter_isTokenLetter u] at this
        simp at this
    | tk b =>
      have hb : b.letter ≠ u.letter := hadj b rfl
      obtain ⟨n, hn⟩ : ∃ n, b.len = n + 1 := ⟨b.len - 1, by have := tok_len_pos b; omega⟩
      simp only [Seg.chars, Tok.chars, hn, List.replicate_succ, List.cons_append,
        List.head?_cons, Option.some.injEq] at hc
      subst hc
      exact hb

/-- One `split`/`join` pass realises the per-segment substitution of its
token, provided literals are inert, the segmentation is longest-first
consistent, and no same-letter token longer than the pass's own is still
pending. -/
theorem pass_eq (p : DateParts) (t : Tok) :
    ∀ segs : List Seg,
      (∀ s ∈ segs, segLitOk s) →
      List.Chain' segAdj segs →
      (∀ u, Seg.tk u ∈ segs → u.letter = t.letter → u.len ≤ t.len) →
      replaceAll t.letter (List.replicate (t.len - 1) t.letter) (t.val p)
          (renderS segs) =
        renderS (passSeg p t segs) := by
  intro segs
  induction segs with
  | nil => intro _ _ _; simp [renderS, passSeg, replaceAll_nil]
  | cons s rest ih =>
    intro hlits hadj hlen
    have hlits' : ∀ s ∈ rest, segLitOk s := fun s hs => hlits s (List.mem_cons_of_mem _ hs)
    have hadj' : List.Chain' segAdj rest := hadj.tail
    have hlen' : ∀ u, Seg.tk u ∈ rest → u.letter = t.letter → u.len ≤ t.len :=
      fun u hu => hlen u (List.mem_cons_of_mem _ hu)
    have ihr := ih hlits' hadj' hlen'
    cases s with
    | lit l =>
      obtain ⟨-, hl⟩ := hlits (Seg.lit l) (List.mem_cons_self _ _)
      rw [renderS_cons]
      rw [replaceAll_skip _ _ _ _ _ (fun x hx => by
        intro hxc
        have := hl x hx
        rw [hxc, tok_letter_isTokenLetter t] at this
        simp at this)]
      rw [ihr]
      simp [passSeg, renderS, segStep]
    | tk u =>
      by_cases hletter : u.letter = t.letter
      · have hle : u.len ≤ t.len := hlen u (List.mem_cons_self _ _) hletter
        rcases Nat.lt_or_ge u.len t.len with hlt | hge
        · -- shorter same-letter token: longest-first consistency means the
          -- continuation cannot extend the run, so the pass skips over it
          have hext : u.extendable = true := tok_extendable_of_shorter u t hletter hlt
          have hnext : ∀ b, rest.head? = some (Seg.tk b) → b.letter ≠ u.letter := by
            intro b hb
            have := List.chain'_cons'.1 hadj |>.1 (Seg.tk b) hb
            exact this hext
          have hhead := head_renderS_ne u rest hlits' hnext
          rw [renderS_cons]
          have hchars : Seg.chars (Seg.tk u) = List.replicate u.len t.letter := by
            simp [Seg.chars, Tok.chars, hletter]
          rw [hchars]
          have hhead' : ∀ c, (renderS rest).head? = some c → c ≠ t.letter := by
            intro c hc
            rw [← hletter]
            exact hhead c hc
          rw [replaceAll_run t.letter t.len (t.val p) (renderS rest) hhead' u.len hlt]
          rw [ihr]
          have hu_ne : u ≠ t := by
            intro h
            rw [h] at hlt
            omega
          simp [passSeg, renderS, segStep, hu_ne, Seg.chars, Tok.chars, hletter]
        · -- equal length: this is exactly the token of the current pass
          have hu_eq : u = t := tok_eq_of_letter_len u t hletter (by omega)
          subst hu_eq
          rw [renderS_cons]
          have hchars : Seg.chars (Seg.tk u) =
              (u.letter :: List.replicate (u.len - 1) u.letter) := by
            simp only [Seg.chars, Tok.chars]
            obtain ⟨n, hn⟩ : ∃ n, u.len = n + 1 := ⟨u.len - 1, by have := tok_len_pos u; omega⟩
            rw [hn, List.replicate_succ]
            simp
          rw [hchars, replaceAll_exact]
          rw [ihr]
          simp [passSeg, renderS, segStep, Seg.chars]
      · -- different letter family: the run cannot match the pattern head
        rw [renderS_cons]
        have hchars : ∀ x ∈ Seg.chars (Seg.tk u), x ≠ t.letter := by
          intro x hx
          simp only [Seg.chars, Tok.chars] at hx
          rw [List.eq_of_mem_replicate hx]
          exact hletter
        rw [replaceAll_skip _ _ _ _ _ hchars, ihr]
        have hu_ne : u ≠ t := fun h => hletter (by rw [h])
        simp [passSeg, renderS, segStep, hu_ne]

/-! ## Invariant preservation and the full fold -/

theorem passSeg_litOk (p : DateParts) (t : Tok) (segs : List Seg)
    (h : ∀ s ∈ segs, segLitOk s) : ∀ s ∈ passSeg p t segs, segLitOk s := by
  intro s hs
  obtain ⟨s0, hs0, rfl⟩ := List.mem_map.1 hs
  cases s0 with
  | lit l => exact h _ hs0
  | tk u =>
    simp only [segStep]
    split
    · exact ⟨tokVal_ne_nil p u, tokVal_not_tokenLetter p u⟩
    · trivial

theorem segAdj_lit_left (l : List Char) (s : Seg) : segAdj (.lit l) s := by
  cases s <;> trivial

theorem segAdj_lit_right (s : Seg) (l : List Char) : segAdj s (.lit l) := by
  cases s <;> trivial

theorem passSeg_adj (p : DateParts) (t : Tok) (segs : List Seg)
    (h : List.Chain' segAdj segs) : List.Chain' segAdj (passSeg p t segs) := by
  rw [passSeg, List.chain'_map]
  refine h.imp fun a b hab => ?_
  cases a with
  | lit l => cases b <;> exact segAdj_lit_left _ _
  | tk u =>
    cases b with
    | lit l2 =>
      simp only [segStep]
      split
      · exact segAdj_lit_left _ _
      · exact segAdj_lit_right _ _
    | tk w =>
      simp only [segStep]
      split
      · split
        · exact segAdj_lit_left _ _
        · exact segAdj_lit_left _ _
      · split
        · exact segAdj_lit_right _ _
        · exact hab

theorem passSeg_mem (p : DateParts) (t : Tok) (rest : List Tok) (segs : List Seg)
    (h : ∀ u, Seg.tk u ∈ segs → u ∈ t :: rest) :
    ∀ u, Seg.tk u ∈ passSeg p t segs → u ∈ rest := by
  intro u hu
  obtain ⟨s0, hs0, heq⟩ := List.mem_map.1 hu
  cases s0 with
  | lit l => simp [segStep] at heq
  | tk w =>
    simp only [segStep] at heq
    by_cases hw : w = t
    · rw [if_pos hw] at heq
      exact absurd heq (by simp)
    · rw [if_neg hw] at heq
      injection heq with h2
      subst h2
      rcases List.mem_cons.1 (h w hs0) with h1 | h1
      · exact absurd h1 hw
      · exact h1

/-- Running the pending passes over a well-formed segment list performs
exactly the per-segment substitutions. -/
theorem passes_eq (p : DateParts) :
    ∀ (toks : List Tok) (segs : List Seg),
      (∀ s ∈ segs, segLitOk s) →
      List.Chain' segAdj segs →
      (∀ u, Seg.tk u ∈ segs → u ∈ toks) →
      List.Pairwise (fun a b : Tok => a.letter = b.letter → b.len ≤ a.len) toks →
      toks.foldl (applyTok p) (renderS segs) =
        renderS (toks.foldl (fun sg t => passSeg p t sg) segs) := by
  intro toks
  induction toks with
  | nil => intro segs _ _ _ _; rfl
  | cons t rest ih =>
    intro segs hlits hadj hmem hord
    have hlen : ∀ u, Seg.tk u ∈ segs → u.letter = t.letter → u.len ≤ t.len := by
      intro u hu hul
      rcases List.mem_cons.1 (hmem u hu) with h1 | h1
      · subst h1
        exact le_rfl
      · exact (List.pairwise_cons.1 hord).1 u h1 hul.symm
    have hstep := pass_eq p t segs hlits hadj hlen
    simp only [List.foldl_cons]
    rw [show applyTok p (renderS segs) t = replaceAll t.letter
        (List.replicate (t.len - 1) t.letter) (t.val p) (renderS segs) from rfl, hstep]
    exact ih (passSeg p t segs) (passSeg_litOk p t segs hlits) (passSeg_adj p t segs hadj)
      (passSeg_mem p t rest segs hmem) (List.pairwise_cons.1 hord).2

theorem FORMAT_TOKENS_pairwise :
    List.Pairwise (fun a b : Tok => a.letter = b.letter → b.len ≤ a.len) FORMAT_TOKENS := by
  decide

/-! ## Final assembly: `formatCustom` realises the template substitution -/

theorem initSeg_chars (it : TItem) : (initSeg it).chars = it.chars := by
  cases it <;> rfl

theorem renderT_eq_renderS (items : List TItem) :
    renderT items = renderS (items.map initSeg) := by
  simp only [renderT, renderS, List.map_map]
  congr 1
  exact (List.map_congr_left fun it _ => (initSeg_chars it).symm)

theorem initSeg_litOk (items : List TItem) (hsep : ∀ it ∈ items, itemSepOk it) :
    ∀ s ∈ items.map initSeg, segLitOk s := by
  intro s hs
  obtain ⟨it, hit, rfl⟩ := List.mem_map.1 hs
  cases it with
  | tok t => trivial
  | sep c =>
    refine ⟨by simp [initSeg], ?_⟩
    intro x hx
    rw [show x = c by simpa [initSeg] using hx]
    exact hsep _ hit

theorem initSeg_adj (items : List TItem) (h : List.Chain' itemAdj items) :
    List.Chain' segAdj (items.map initSeg) := by
  rw [List.chain'_map]
  refine h.imp fun a b hab => ?_
  cases a <;> cases b <;> simp only [initSeg] <;> trivial

/-- The result of folding all twelve passes over one initial segment:
token items end as their substituted value, separators stay themselves. -/
theorem foldl_segStep_initSeg (p : DateParts) (it : TItem) :
    FORMAT_TOKENS.foldl (fun sg t => segStep p t sg) (initSeg it) =
      Seg.lit (it.subst p) := by
  cases it with
  | sep c => rfl
  | tok u => cases u <;> rfl

theorem foldl_passSeg_eq_map (p : DateParts) :
    ∀ (toks : List Tok) (segs : List Seg),
      toks.foldl (fun sg t => passSeg p t sg) segs =
        segs.map fun s => toks.foldl (fun x t => segStep p t x) s := by
  intro toks
  induction toks with
  | nil => intro segs; simp
  | cons t rest ih =>
    intro segs
    simp only [List.foldl_cons]
    rw [show passSeg p t segs = segs.map (segStep p t) from rfl,
      ih (segs.map (segStep p t)), List.map_map]
    simp [Function.comp]

/-- `formatCustom` substitutes every token occurrence of a well-formed
template with its component and leaves every separator character
unchanged. -/
theorem formatCustomL_eq_substT (p : DateParts) (items : List TItem)
    (hWF : WFTemplate items) :
    formatCustomL p (renderT items) = substT p items := by
  obtain ⟨hsep, hadj⟩ := hWF
  rw [formatCustomL, renderT_eq_renderS]
  rw [passes_eq p FORMAT_TOKENS (items.map initSeg)
    (initSeg_litOk items hsep) (initSeg_adj items hadj)
    (fun u _ => tok_mem_FORMAT_TOKENS u) FORMAT_TOKENS_pairwise]
  rw [foldl_passSeg_eq_map]
  simp only [renderS, substT, List.map_map]
  congr 1
  refine List.map_congr_left fun it _ => ?_
  simp only [Function.comp_apply, foldl_segStep_initSeg]
  rfl

/-- After any successful invocation, a further invocation whose message
key coincides with the first one is a complete no-op: the guard set and
the parts list are returned unchanged. -/
theorem hook_second_call_noop (env env2 : JSEnv) (config : TimeRefreshConfig)
    (ms1 ms2 : Nat) (i1 i2 : HookInput) (st : List String) (parts : List MsgPart)
    (st1 : List String) (parts1 : List MsgPart)
    (hkey : messageKey i1 = messageKey i2)
    (h1 : chatMessageHook env config ms1 i1 st parts = .ok (st1, parts1)) :
    chatMessageHook env2 config ms2 i2 st1 parts1 = .ok (st1, parts1) := by
  unfold chatMessageHook at h1 ⊢
  by_cases hinc : config.includeInEveryMessage = false
  · rw [if_pos hinc]
  · rw [if_neg hinc] at h1 ⊢
    by_cases hmem : messageKey i1 ∈ st
    · rw [if_pos hmem] at h1
      injection h1 with h1'
      rw [Prod.mk.injEq] at h1'
      obtain ⟨rfl, rfl⟩ := h1'
      rw [if_pos (hkey ▸ hmem)]
    · rw [if_neg hmem] at h1
      cases hft : formatTime env config ms1 with
      | error e =>
        rw [hft] at h1
        simp [Except.map] at h1
      | ok ts =>
        rw [hft] at h1
        simp only [Except.map, Except.ok.injEq, Prod.mk.injEq] at h1
        obtain ⟨hst1, -⟩ := h1
        have hst : messageKey i2 ∈ st1 := by
          rw [← hkey, ← hst1]
          exact List.mem_cons_self _ _
        rw [if_pos hst]

/-- C1: invoking the `chat.message` hook twice with the same message
identifier against the same output mutates the text content only on the
first call: the second invocation, run on the guard state and parts
produced by the first, performs no mutation at all, so the text content
after the second invocation equals the text content after the first. -/
theorem chat_hook_idempotent (env env2 : JSEnv) (config : TimeRefreshConfig)
    (ms1 ms2 : Nat) (input : HookInput) (st : List String) (parts : List MsgPart)
    (st1 : List String) (parts1 : List MsgPart)
    (h1 : chatMessageHook env config ms1 input st parts = .ok (st1, parts1)) :
    chatMessageHook env2 config ms2 input st1 parts1 = .ok (st1, parts1) :=
  hook_second_call_noop env env2 config ms1 ms2 input input st parts st1 parts1 rfl h1

theorem chat_hook_idempotent_witness :
    chatMessageHook demoEnv DEFAULT_CONFIG 1 ⟨"m1", "s1"⟩ ["m1"]
        [MsgPart.text "time-0" "s1" "m1" "[Current time: 1970-01-01T00:00:00.000Z]"] =
      .ok (["m1"],
        [MsgPart.text "time-0" "s1" "m1" "[Current time: 1970-01-01T00:00:00.000Z]"]) :=
  chat_hook_idempotent demoEnv demoEnv DEFAULT_CONFIG 0 1 ⟨"m1", "s1"⟩ [] [] ["m1"]
    [MsgPart.text "time-0" "s1" "m1" "[Current time: 1970-01-01T00:00:00.000Z]"] rfl

/-- C7: when the message output contains no text segment, a qualifying
invocation (guard not yet hit, `includeInEveryMessage` on) inserts
exactly one new text segment at the front of the parts list, whose
content is exactly `prefix + formattedTime + suffix` with no separating
blank line. -/
theorem hook_inserts_single_text_part (env : JSEnv) (config : TimeRefreshConfig)
    (ms : Nat) (input : HookInput) (st : List String) (parts : List MsgPart)
    (ts : String)
    (hinc : config.includeInEveryMessage = true)
    (hmem : messageKey input ∉ st)
    (hnotext : parts.any MsgPart.isText = false)
    (hts : formatTime env config ms = .ok ts) :
    chatMessageHook env config ms input st parts =
      .ok (messageKey input :: st,
        MsgPart.text ("time-" ++ natToString ms) input.sessionID input.messageID ts
          :: parts) ∧
    (MsgPart.text ("time-" ++ natToString ms) input.sessionID input.messageID ts
        :: parts).filter MsgPart.isText =
      [MsgPart.text ("time-" ++ natToString ms) input.sessionID input.messageID ts] ∧
    ∃ body, ts = config.prefixStr ++ body ++ config.suffix := by
  refine ⟨?_, ?_, ?_⟩
  · unfold chatMessageHook
    rw [if_neg (by rw [hinc]; exact fun h => Bool.noConfusion h), if_neg hmem, hts]
    simp only [Except.map, hnotext, Bool.false_eq_true, if_false]
  · rw [List.filter_cons_of_pos (by rfl)]
    have : parts.filter MsgPart.isText = [] := by
      rw [List.filter_eq_nil_iff]
      intro a ha hp
      rw [List.any_eq_false] at hnotext
      exact hnotext a ha hp
    rw [this]
  · unfold formatTime at hts
    cases hr : resolveTimezoneE env config.timezone with
    | error e => rw [hr] at hts; simp [Except.map] at hts
    | ok tz =>
      rw [hr] at hts
      simp only [Except.map, Except.ok.injEq] at hts
      exact ⟨formatBody env config ms tz, hts.symm⟩

theorem hook_inserts_single_text_part_witness :
    DEFAULT_CONFIG.includeInEveryMessage = true ∧
    ("m1" : String) ∉ ([] : List String) ∧
    ([MsgPart.other "tool"].any MsgPart.isText = false) ∧
    chatMessageHook demoEnv DEFAULT_CONFIG 0 ⟨"m1", "s1"⟩ [] [MsgPart.other "tool"] =
      .ok (["m1"],
        [MsgPart.text "time-0" "s1" "m1" "[Current time: 1970-01-01T00:00:00.000Z]",
          MsgPart.other "tool"]) := by
  refine ⟨rfl, by simp, rfl, ?_⟩
  exact (hook_inserts_single_text_part demoEnv DEFAULT_CONFIG 0 ⟨"m1", "s1"⟩ []
    [MsgPart.other "tool"] "[Current time: 1970-01-01T00:00:00.000Z]" rfl
    (by simp) rfl rfl).1

/-- C10: the idempotency-guard key is the `messageID` when it is a
non-empty string and otherwise the `sessionID`; consequently, when two
invocations both lack a `messageID` and share a `sessionID`, the second
performs no mutation even though it may represent a different message. -/
theorem hook_sessionID_key_collision (env env2 : JSEnv) (config : TimeRefreshConfig)
    (ms1 ms2 : Nat) (i1 i2 : HookInput) (st : List String) (parts : List MsgPart)
    (st1 : List String) (parts1 : List MsgPart)
    (h1mid : i1.messageID = "") (h2mid : i2.messageID = "")
    (hsid : i1.sessionID = i2.sessionID)
    (h1 : chatMessageHook env config ms1 i1 st parts = .ok (st1, parts1)) :
    (∀ i : HookInput, i.messageID ≠ "" → messageKey i = i.messageID) ∧
    (∀ i : HookInput, i.messageID = "" → messageKey i = i.sessionID) ∧
    chatMessageHook env2 config ms2 i2 st1 parts1 = .ok (st1, parts1) := by
  refine ⟨fun i h => if_neg h, fun i h => if_pos h, ?_⟩
  refine hook_second_call_noop env env2 config ms1 ms2 i1 i2 st parts st1 parts1 ?_ h1
  rw [messageKey, messageKey, if_pos h1mid, if_pos h2mid, hsid]

theorem hook_sessionID_key_collision_witness :
    chatMessageHook demoEnv DEFAULT_CONFIG 5 ⟨"", "s1"⟩ ["s1"]
        [MsgPart.text "time-0" "s1" "" "[Current time: 1970-01-01T00:00:00.000Z]"] =
      .ok (["s1"],
        [MsgPart.text "time-0" "s1" "" "[Current time: 1970-01-01T00:00:00.000Z]"]) :=
  (hook_sessionID_key_collision demoEnv demoEnv DEFAULT_CONFIG 0 5 ⟨"", "s1"⟩ ⟨"", "s1"⟩
    [] [] ["s1"]
    [MsgPart.text "time-0" "s1" "" "[Current time: 1970-01-01T00:00:00.000Z]"]
    rfl rfl rfl rfl).2.2

/-- C2: for every template composed solely of the twelve defined tokens
and arbitrary non-token separator characters (read longest-first, so a
longer token is never partially consumed by a shorter rule — captured by
`WFTemplate`), and for every instant's date parts, `formatCustom`
substitutes every token occurrence with its zero-padded or unpadded
component and leaves every non-token character unchanged; in particular
the template `YYYY-MM-DD HH:mm:ss` on 2024-06-15T14:30:45Z in UTC yields
`2024-06-15 14:30:45`. -/
theorem formatCustom_substitutes_tokens :
    (∀ (p : DateParts) (items : List TItem), WFTemplate items →
      formatCustomL p (renderT items) = substT p items) ∧
    formatCustom (utcDateParts 1718461845000) "YYYY-MM-DD HH:mm:ss" =
      "2024-06-15 14:30:45" :=
  ⟨formatCustomL_eq_substT, rfl⟩

theorem formatCustom_substitutes_tokens_witness :
    WFTemplate [TItem.tok .Y4, TItem.sep '-', TItem.tok .M2, TItem.sep '-',
        TItem.tok .D2, TItem.sep ' ', TItem.tok .H2, TItem.sep ':', TItem.tok .Mi2,
        TItem.sep ':', TItem.tok .S2] ∧
    formatCustomL (utcDateParts 1718461845000)
        (renderT [TItem.tok .Y4, TItem.sep '-', TItem.tok .M2, TItem.sep '-',
          TItem.tok .D2, TItem.sep ' ', TItem.tok .H2, TItem.sep ':', TItem.tok .Mi2,
          TItem.sep ':', TItem.tok .S2]) =
      substT (utcDateParts 1718461845000)
        [TItem.tok .Y4, TItem.sep '-', TItem.tok .M2, TItem.sep '-',
          TItem.tok .D2, TItem.sep ' ', TItem.tok .H2, TItem.sep ':', TItem.tok .Mi2,
          TItem.sep ':', TItem.tok .S2] :=
  ⟨by decide,
    formatCustom_substitutes_tokens.1 (utcDateParts 1718461845000)
      [TItem.tok .Y4, TItem.sep '-', TItem.tok .M2, TItem.sep '-',
        TItem.tok .D2, TItem.sep ' ', TItem.tok .H2, TItem.sep ':', TItem.tok .Mi2,
        TItem.sep ':', TItem.tok .S2] (by decide)⟩

/-! ## Validation claims -/

/-- C3: `validateConfig` accumulates every failing field check and never
short-circuits: with `enabled`, `format`, `timezone`,
`includeInEveryMessage`, `prefix` and `suffix` simultaneously invalid,
the result holds at least six errors, one per failing field. -/
theorem validateConfig_accumulates (tzdb : String → Bool) (config : RawConfig)
    (h1 : config.enabled.isBoolean = false)
    (h2 : formatIsValid config.format = false)
    (h3 : config.timezone.isString = false ∨
      ∃ s, config.timezone = .vStr s ∧ s ≠ "" ∧ tzdb s = false)
    (h4 : config.includeInEveryMessage.isBoolean = false)
    (h5 : config.prefixStr.isString = false)
    (h6 : config.suffix.isString = false) :
    6 ≤ (validateConfig tzdb config).errors.length ∧
    (validateConfig tzdb config).errors.map ValidationError.field =
      ["enabled", "format", "timezone", "includeInEveryMessage", "prefix", "suffix"] := by
  have hfmt : (config.format == JSVal.vStr "custom") = false := by
    simp only [formatIsValid, Bool.or_eq_false_iff] at h2
    exact h2.2
  have htz : ∃ e, timezoneErrors tzdb config.timezone = [e] ∧
      e.field = "timezone" := by
    rcases h3 with h3 | ⟨s, hs, hne, hdb⟩
    · cases hv : config.timezone with
      | vStr s => rw [hv] at h3; simp [JSVal.isString] at h3
      | vBool b => exact ⟨_, rfl, rfl⟩
      | vNum n => exact ⟨_, rfl, rfl⟩
      | vNull => exact ⟨_, rfl, rfl⟩
      | vUndef => exact ⟨_, rfl, rfl⟩
      | vObj => exact ⟨_, rfl, rfl⟩
    · rw [hs]
      refine ⟨ValidationError.mk "timezone"
          ("timezone \x27" ++ s ++ "\x27 is not a valid IANA timezone identifier")
          (JSVal.vStr s), ?_, rfl⟩
      simp only [timezoneErrors]
      split
      · rfl
      · next hfalse =>
          exfalso
          apply hfalse
          simp [isValidTimezoneP, hne, hdb]
  obtain ⟨e, he, hef⟩ := htz
  have herr : (validateConfig tzdb config).errors =
      enabledErrors config.enabled ++ formatErrors config.format ++
      customFormatErrors config.format config.customFormat ++
      timezoneErrors tzdb config.timezone ++
      includeErrors config.includeInEveryMessage ++
      prefixErrors config.prefixStr ++ suffixErrors config.suffix := rfl
  rw [herr, he]
  simp only [enabledErrors, formatErrors, customFormatErrors, includeErrors,
    prefixErrors, suffixErrors, h1, h2, h4, h5, h6, hfmt, Bool.false_eq_true, if_false]
  simp [hef]

theorem validateConfig_accumulates_witness :
    6 ≤ (validateConfig (fun _ => true)
        (RawConfig.mk (.vStr "yes") (.vNum 3) .vNull .vUndef .vNull (.vNum 1)
          (.vBool true))).errors.length ∧
    (validateConfig (fun _ => true)
        (RawConfig.mk (.vStr "yes") (.vNum 3) .vNull .vUndef .vNull (.vNum 1)
          (.vBool true))).errors.map ValidationError.field =
      ["enabled", "format", "timezone", "includeInEveryMessage", "prefix", "suffix"] :=
  validateConfig_accumulates (fun _ => true)
    (RawConfig.mk (.vStr "yes") (.vNum 3) .vNull .vUndef .vNull (.vNum 1) (.vBool true))
    rfl rfl (Or.inl rfl) rfl rfl rfl

/-- C8: for every configuration, the errors of `validateConfig` follow
field-declaration order (`enabled`, `format`, `customFormat`, `timezone`,
`includeInEveryMessage`, `prefix`, `suffix`), and `valid` is `true` iff
the errors list is empty. -/
theorem validateConfig_order_and_valid (tzdb : String → Bool) (config : RawConfig) :
    ((validateConfig tzdb config).errors.map ValidationError.field).Sublist
      ["enabled", "format", "customFormat", "timezone", "includeInEveryMessage",
        "prefix", "suffix"] ∧
    ((validateConfig tzdb config).valid = true ↔
      (validateConfig tzdb config).errors = []) := by
  constructor
  · have hE : ((enabledErrors config.enabled).map ValidationError.field).Sublist
        ["enabled"] := by
      rw [enabledErrors]; split <;> simp
    have hF : ((formatErrors config.format).map ValidationError.field).Sublist
        ["format"] := by
      rw [formatErrors]; split <;> simp
    have hC : ((customFormatErrors config.format config.customFormat).map
        ValidationError.field).Sublist ["customFormat"] := by
      unfold customFormatErrors
      split
      · split
        · split <;> simp
        · simp
      · simp
    have hT : ((timezoneErrors tzdb config.timezone).map
        ValidationError.field).Sublist ["timezone"] := by
      cases config.timezone with
      | vStr s =>
        simp only [timezoneErrors]
        split <;> simp
      | vBool b => simp [timezoneErrors]
      | vNum n => simp [timezoneErrors]
      | vNull => simp [timezoneErrors]
      | vUndef => simp [timezoneErrors]
      | vObj => simp [timezoneErrors]
    have hI : ((includeErrors config.includeInEveryMessage).map
        ValidationError.field).Sublist ["includeInEveryMessage"] := by
      rw [includeErrors]; split <;> simp
    have hP : ((prefixErrors config.prefixStr).map ValidationError.field).Sublist
        ["prefix"] := by
      rw [prefixErrors]; split <;> simp
    have hS : ((suffixErrors config.suffix).map ValidationError.field).Sublist
        ["suffix"] := by
      rw [suffixErrors]; split <;> simp
    show ((enabledErrors config.enabled ++ formatErrors config.format ++
      customFormatErrors config.format config.customFormat ++
      timezoneErrors tzdb config.timezone ++
      includeErrors config.includeInEveryMessage ++
      prefixErrors config.prefixStr ++ suffixErrors config.suffix).map
        ValidationError.field).Sublist _
    simp only [List.map_append]
    exact ((((((hE.append hF).append hC).append hT).append hI).append hP).append hS)
  · rw [show (validateConfig tzdb config).valid =
        ((validateConfig tzdb config).errors.length == 0) from rfl]
    simp only [beq_iff_eq, List.length_eq_zero]

/-! ## Timezone-resolution and formatting safety claims -/

/-- C4: on a host whose timezone probe fails only with `RangeError` (the
ECMA-402 behaviour for string inputs), timezone resolution and every
timezone-aware formatting entry point return a value for every string
input — nothing throws — and an empty or invalid timezone degrades
silently to the system timezone. -/
theorem timezone_formatting_never_throws (env : JSEnv) (hwb : WellBehaved env) :
    (∀ tz, ∃ b, isValidTimezone env tz = .ok b) ∧
    (∀ tz, ∃ r, resolveTimezoneE env tz = .ok r) ∧
    (∀ config ms, ∃ r, formatTime env config ms = .ok r) ∧
    (∀ ms tz, ∃ c, createTimeContext env ms tz = .ok c) ∧
    (∀ tz, tz = "" ∨ env.tzProbe tz = .error .rangeError →
      resolveTimezoneE env tz = .ok (getSystemTimezone env)) := by
  have hvalid : ∀ tz, ∃ b, isValidTimezone env tz = .ok b := by
    intro tz
    unfold isValidTimezone
    by_cases htz : tz = ""
    · exact ⟨true, by rw [if_pos htz]⟩
    · rw [if_neg htz]
      cases hp : env.tzProbe tz with
      | ok u => exact ⟨true, rfl⟩
      | error e =>
        have := hwb tz e hp
        subst this
        exact ⟨false, rfl⟩
  have hres : ∀ tz, ∃ r, resolveTimezoneE env tz = .ok r := by
    intro tz
    unfold resolveTimezoneE
    by_cases htz : tz = ""
    · exact ⟨getSystemTimezone env, by rw [if_pos htz]⟩
    · rw [if_neg htz]
      obtain ⟨b, hb⟩ := hvalid tz
      rw [hb]
      exact ⟨_, rfl⟩
  refine ⟨hvalid, hres, ?_, ?_, ?_⟩
  · intro config ms
    obtain ⟨r, hr⟩ := hres config.timezone
    unfold formatTime
    rw [hr]
    exact ⟨_, rfl⟩
  · intro ms tz
    cases tz with
    | none => exact ⟨_, rfl⟩
    | some tz0 =>
      obtain ⟨r, hr⟩ := hres tz0
      unfold createTimeContext
      rw [show resolveTimezoneOptE env (some tz0) = resolveTimezoneE env tz0 from rfl, hr]
      exact ⟨_, rfl⟩
  · intro tz htz
    unfold resolveTimezoneE
    rcases htz with rfl | hprobe
    · rw [if_pos rfl]
    · by_cases he : tz = ""
      · rw [if_pos he]
      · rw [if_neg he]
        unfold isValidTimezone
        rw [if_neg he, hprobe]
        rfl

theorem timezone_formatting_never_throws_witness :
    ∃ r, formatTime (JSEnv.mk (fun _ => .error .rangeError) "UTC" (fun _ _ => "")
        (fun _ _ => "") (fun _ _ => "") (fun _ _ => "") (fun ms _ => utcDateParts ms))
      (TimeRefreshConfig.mk true "iso" "YYYY-MM-DD HH:mm:ss" "Not/AZone" true "" "")
      0 = .ok r :=
  (timezone_formatting_never_throws
    (JSEnv.mk (fun _ => .error .rangeError) "UTC" (fun _ _ => "") (fun _ _ => "")
      (fun _ _ => "") (fun _ _ => "") (fun ms _ => utcDateParts ms))
    (fun _ e h => by injection h with h2; exact h2.symm)).2.2.1
    (TimeRefreshConfig.mk true "iso" "YYYY-MM-DD HH:mm:ss" "Not/AZone" true "" "") 0

/-- C9: for every configuration whose `format` is neither `'locale'` nor
`'custom'` — including out-of-enum strings — `formatTime` returns
`prefix + UTC ISO-8601 instant + suffix` without raising: unknown formats
silently fall back to ISO. -/
theorem formatTime_unknown_format_iso (env : JSEnv) (config : TimeRefreshConfig)
    (ms : Nat) (hwb : WellBehaved env)
    (hl : config.format ≠ "locale") (hc : config.format ≠ "custom") :
    formatTime env config ms =
      .ok (config.prefixStr ++ toISOString ms ++ config.suffix) := by
  obtain ⟨-, hres, -, -, -⟩ := timezone_formatting_never_throws env hwb
  obtain ⟨tz, htz⟩ := hres config.timezone
  unfold formatTime
  rw [htz]
  have hbody : formatBody env config ms tz = toISOString ms := by
    unfold formatBody
    by_cases hiso : config.format = "iso"
    · rw [if_pos hiso]
    · rw [if_neg hiso, if_neg hl, if_neg hc]
  simp only [Except.map]
  rw [hbody]

theorem formatTime_unknown_format_iso_witness :
    formatTime demoEnv
        (TimeRefreshConfig.mk true "bogus" "YYYY-MM-DD HH:mm:ss" "" true "<" ">") 0 =
      .ok ("<" ++ toISOString 0 ++ ">") :=
  formatTime_unknown_format_iso demoEnv
    (TimeRefreshConfig.mk true "bogus" "YYYY-MM-DD HH:mm:ss" "" true "<" ">") 0
    (fun _ e h => by injection h) (by simp) (by simp)

/-- C6: for every instant and all timezone arguments, a successful
`createTimeContext` yields `iso` equal to the UTC ISO-8601 rendering of
the instant and `timestamp` equal to its epoch-millisecond count, both
independent of the resolved timezone. -/
theorem createTimeContext_iso_timestamp (env : JSEnv) (ms : Nat)
    (tz1 tz2 : Option String) (c1 c2 : TimeContext)
    (h1 : createTimeContext env ms tz1 = .ok c1)
    (h2 : createTimeContext env ms tz2 = .ok c2) :
    c1.iso = toISOString ms ∧ c1.timestamp = ms ∧
    c1.iso = c2.iso ∧ c1.timestamp = c2.timestamp := by
  have hfields : ∀ (tz : Option String) (c : TimeContext),
      createTimeContext env ms tz = .ok c → c.iso = toISOString ms ∧ c.timestamp = ms := by
    intro tz c hc
    unfold createTimeContext at hc
    cases hr : resolveTimezoneOptE env tz with
    | error e => rw [hr] at hc; exact absurd hc (by simp [Except.map])
    | ok rtz =>
      rw [hr] at hc
      simp only [Except.map, Except.ok.injEq] at hc
      rw [← hc]
      exact ⟨rfl, rfl⟩
  obtain ⟨hi1, ht1⟩ := hfields tz1 c1 h1
  obtain ⟨hi2, ht2⟩ := hfields tz2 c2 h2
  exact ⟨hi1, ht1, by rw [hi1, hi2], by rw [ht1, ht2]⟩

theorem createTimeContext_iso_timestamp_witness :
    (createTimeContext demoEnv 1718461845123 none).map TimeContext.iso =
        .ok (toISOString 1718461845123) ∧
    (createTimeContext demoEnv 1718461845123 none).map TimeContext.timestamp =
        .ok 1718461845123 := by
  have h := createTimeContext_iso_timestamp demoEnv 1718461845123 none
    (some "America/New_York")
    (TimeContext.mk "2024-06-15T14:30:45.123Z" "6/15/2024, 2:30:45 PM" "6/15/2024"
      "2:30:45 PM" "UTC" "Saturday" 1718461845123)
    (TimeContext.mk "2024-06-15T14:30:45.123Z" "6/15/2024, 2:30:45 PM" "6/15/2024"
      "2:30:45 PM" "America/New_York" "Saturday" 1718461845123)
    rfl rfl
  rw [show createTimeContext demoEnv 1718461845123 none =
    .ok (TimeContext.mk "2024-06-15T14:30:45.123Z" "6/15/2024, 2:30:45 PM" "6/15/2024"
      "2:30:45 PM" "UTC" "Saturday" 1718461845123) from rfl]
  exact ⟨by rw [show Except.map TimeContext.iso (Except.ok _) = Except.ok _ from rfl, h.1],
    by rw [show Except.map TimeContext.timestamp (Except.ok _) = Except.ok _ from rfl, h.2.1]⟩

/-! ## `loadConfig` claims -/

theorem loadConfigS_fresh_addr (s : ConfigStore) (u : Option PartialConfig)
    (hlen : 0 < s.objs.length) : (loadConfigS s u).2 ≠ 0 := by
  simp only [loadConfigS]
  omega

theorem loadConfigS_default_slot (s : ConfigStore) (u : Option PartialConfig)
    (hlen : 0 < s.objs.length) :
    (loadConfigS s u).1.objs.getD 0 DEFAULT_CONFIG = s.objs.getD 0 DEFAULT_CONFIG := by
  simp only [loadConfigS]
  exact List.getD_append _ _ _ _ hlen

theorem loadConfigS_value (s : ConfigStore) (u : Option PartialConfig)
    (hd : s.objs.getD 0 DEFAULT_CONFIG = DEFAULT_CONFIG) :
    (loadConfigS s u).1.objs.getD (loadConfigS s u).2 DEFAULT_CONFIG = loadConfig u := by
  simp only [loadConfigS]
  rw [List.getD_append_right _ _ _ _ le_rfl, Nat.sub_self]
  cases u with
  | none =>
    show s.objs.getD 0 DEFAULT_CONFIG = loadConfig none
    rw [hd]
    rfl
  | some p =>
    show mergeConfig (s.objs.getD 0 DEFAULT_CONFIG) p = loadConfig (some p)
    rw [hd]
    rfl

theorem writeObj_default_slot (s : ConfigStore) (a : Nat) (v : TimeRefreshConfig)
    (ha : a ≠ 0) :
    (writeObj s a v).objs.getD 0 DEFAULT_CONFIG = s.objs.getD 0 DEFAULT_CONFIG := by
  simp only [writeObj, List.getD_eq_getElem?_getD]
  rw [List.getElem?_set_ne ha]

/-- C5: `loadConfig` of `null`/`undefined` is deeply equal to the default
configuration; a partial input overrides exactly the fields it carries
(`{enabled: false}` keeps everything else at the defaults); and every
call returns an independent freshly-allocated copy, so the default
object is never mutated and mutating a returned object does not affect
subsequent calls. -/
theorem loadConfig_defaults_and_copy :
    loadConfig none = DEFAULT_CONFIG ∧
    (∀ p : PartialConfig,
      loadConfig (some p) = TimeRefreshConfig.mk
        (p.enabled.getD DEFAULT_CONFIG.enabled)
        (p.format.getD DEFAULT_CONFIG.format)
        (p.customFormat.getD DEFAULT_CONFIG.customFormat)
        (p.timezone.getD DEFAULT_CONFIG.timezone)
        (p.includeInEveryMessage.getD DEFAULT_CONFIG.includeInEveryMessage)
        (p.prefixStr.getD DEFAULT_CONFIG.prefixStr)
        (p.suffix.getD DEFAULT_CONFIG.suffix)) ∧
    loadConfig (some { enabled := some false }) =
      { DEFAULT_CONFIG with enabled := false } ∧
    (∀ (s : ConfigStore) (u : Option PartialConfig) (v : TimeRefreshConfig)
        (u2 : Option PartialConfig),
      0 < s.objs.length → s.objs.getD 0 DEFAULT_CONFIG = DEFAULT_CONFIG →
      (loadConfigS s u).2 ≠ 0 ∧
      (loadConfigS s u).1.objs.getD (loadConfigS s u).2 DEFAULT_CONFIG = loadConfig u ∧
      (writeObj (loadConfigS s u).1 (loadConfigS s u).2 v).objs.getD 0
        DEFAULT_CONFIG = DEFAULT_CONFIG ∧
      (loadConfigS (writeObj (loadConfigS s u).1 (loadConfigS s u).2 v) u2).1.objs.getD
        (loadConfigS (writeObj (loadConfigS s u).1 (loadConfigS s u).2 v) u2).2
        DEFAULT_CONFIG = loadConfig u2) := by
  refine ⟨rfl, fun p => rfl, rfl, ?_⟩
  intro s u v u2 hlen hd
  have h1 := loadConfigS_fresh_addr s u hlen
  have h3 : (writeObj (loadConfigS s u).1 (loadConfigS s u).2 v).objs.getD 0
      DEFAULT_CONFIG = DEFAULT_CONFIG := by
    rw [writeObj_default_slot _ _ _ h1, loadConfigS_default_slot s u hlen, hd]
  exact ⟨h1, loadConfigS_value s u hd, h3, loadConfigS_value _ u2 h3⟩

theorem loadConfig_defaults_and_copy_witness :
    (loadConfigS (ConfigStore.mk [DEFAULT_CONFIG])
        (some { enabled := some false })).2 ≠ 0 ∧
    (loadConfigS (writeObj
        (loadConfigS (ConfigStore.mk [DEFAULT_CONFIG])
          (some { enabled := some false })).1
        (loadConfigS (ConfigStore.mk [DEFAULT_CONFIG])
          (some { enabled := some false })).2
        { DEFAULT_CONFIG with prefixStr := "mutated" }) none).1.objs.getD
      (loadConfigS (writeObj
        (loadConfigS (ConfigStore.mk [DEFAULT_CONFIG])
          (some { enabled := some false })).1
        (loadConfigS (ConfigStore.mk [DEFAULT_CONFIG])
          (some { enabled := some false })).2
        { DEFAULT_CONFIG with prefixStr := "mutated" }) none).2
      DEFAULT_CONFIG = loadConfig none :=
  have h := loadConfig_defaults_and_copy.2.2.2 (ConfigStore.mk [DEFAULT_CONFIG])
    (some { enabled := some false }) { DEFAULT_CONFIG with prefixStr := "mutated" }
    none (by simp) rfl
  ⟨h.1, h.2.2.2⟩

end TimeRefresh
